import Mathlib

/-!
Verification of the Bitcoin Core wallet recovery pipeline
(src/src/wallets/bitcoin_core_wallet.cpp) against its specification.

Bytes are modelled as natural numbers (the C++ code works on vectors of
uint8_t; every byte the parser stores comes from such a vector, so values
are below 256 wherever that matters and the theorems carry that bound as a
hypothesis when they need it).  External cryptographic primitives coming
from OpenSSL (PBKDF2, the AES-256 block cipher, SHA-256, RIPEMD-160 and
secp256k1 point multiplication) are not code of this repository; they are
parameters of the model, collected in the Crypto structure.
-/

namespace BtcRecovery

/-- External cryptographic primitives (OpenSSL), abstracted.
kdf models PKCS5_PBKDF2_HMAC(password, salt, iterations, SHA512, 32 bytes);
aesDecBlock models single-block AES-256 decryption of a 16-byte block under
a 32-byte key; sha256 and ripemd160 model the hash functions; ecPubkey
models secp256k1 scalar multiplication returning the uncompressed point. -/
structure Crypto where
  kdf : String → List Nat → Nat → List Nat
  aesDecBlock : List Nat → List Nat → List Nat
  sha256 : List Nat → List Nat
  ripemd160 : List Nat → List Nat
  ecPubkey : List Nat → List Nat

/-- MasterKey record, from bitcoin_core_wallet.h (fields other_params unused
by the code under verification and omitted). -/
structure MasterKey where
  encrypted_key : List Nat
  salt : List Nat
  derive_iterations : Nat
  derive_method : Nat
deriving DecidableEq

/-- CryptedKey record, from bitcoin_core_wallet.h. -/
structure CryptedKey where
  public_key : List Nat
  encrypted_private_key : List Nat
deriving DecidableEq

/-- The registry populated by the Berkeley DB scan: the two std::map
members master_keys_ and crypted_keys_, modelled as association lists in
insertion order with in-place overwrite on key collision. -/
structure Registry where
  master_keys : List (String × MasterKey)
  crypted_keys : List (String × CryptedKey)
deriving DecidableEq

def Registry.empty : Registry := ⟨[], []⟩

/-- std::map operator[] assignment: overwrite the value when the key is
present, append a new entry otherwise. -/
def mapInsert {α : Type} : List (String × α) → String → α → List (String × α)
  | [], k, v => [(k, v)]
  | (k₀, v₀) :: rest, k, v =>
    if k₀ = k then (k, v) :: rest else (k₀, v₀) :: mapInsert rest k v

/-- Read a byte of the buffer; in-range everywhere the code indexes. -/
def getByte (data : List Nat) (i : Nat) : Nat := data.getD i 0

/-- The four-byte marker m k e y at position i (parse_bdb_page). -/
def mkeyMarkerAt (data : List Nat) (i : Nat) : Prop :=
  getByte data i = 109 ∧ getByte data (i+1) = 107 ∧
  getByte data (i+2) = 101 ∧ getByte data (i+3) = 121

instance (data : List Nat) (i : Nat) : Decidable (mkeyMarkerAt data i) := by
  unfold mkeyMarkerAt; infer_instance

/-- The four-byte marker c k e y at position i (parse_bdb_page). -/
def ckeyMarkerAt (data : List Nat) (i : Nat) : Prop :=
  getByte data i = 99 ∧ getByte data (i+1) = 107 ∧
  getByte data (i+2) = 101 ∧ getByte data (i+3) = 121

instance (data : List Nat) (i : Nat) : Decidable (ckeyMarkerAt data i) := by
  unfold ckeyMarkerAt; infer_instance

/-- Master-key record extracted at marker position i: 8 salt bytes at
i+4, then 48 encrypted-key bytes, iterations defaulted to 25000. -/
def masterKeyAt (data : List Nat) (i : Nat) : MasterKey :=
  { encrypted_key := (data.drop (i + 12)).take 48
    salt := (data.drop (i + 4)).take 8
    derive_iterations := 25000
    derive_method := 0 }

/-- Crypted-key record extracted at marker position i: 33 public-key bytes
at i+4, then 48 bytes of encrypted private key. -/
def cryptedKeyAt (data : List Nat) (i : Nat) : CryptedKey :=
  { public_key := (data.drop (i + 4)).take 33
    encrypted_private_key := (data.drop (i + 37)).take 48 }

/-- One iteration of the scanning loop body of parse_bdb_page at index i:
a master-key hit stores under the fixed identifier "default"; a
crypted-key hit stores under the current map size rendered in decimal. -/
def scanIndex (data : List Nat) (reg : Registry) (i : Nat) : Registry :=
  let reg1 :=
    if mkeyMarkerAt data i ∧ i + 4 + 64 < data.length then
      { reg with master_keys := mapInsert reg.master_keys "default" (masterKeyAt data i) }
    else reg
  if ckeyMarkerAt data i ∧ i + 4 + 80 < data.length then
    { reg1 with crypted_keys :=
        mapInsert reg1.crypted_keys (toString reg1.crypted_keys.length) (cryptedKeyAt data i) }
  else reg1

/-- Indices visited by the scanning loop of one page starting at offset:
i from offset while i < min (offset + 1024) (data.length - 32). -/
def pageScanRange (data : List Nat) (offset : Nat) : List Nat :=
  List.range' offset (min (offset + 1024) (data.length - 32) - offset)

/-- parse_bdb_page: scan one 1024-byte window (the Bool early-exit when the
window does not fit is handled by the caller parsePagesAux). -/
def parse_bdb_page (data : List Nat) (offset : Nat) (reg : Registry) : Registry :=
  (pageScanRange data offset).foldl (scanIndex data) reg

/-- The page loop of parse_bdb_file: while offset < size, parse a page;
a page whose 1024-byte window does not fit returns false and breaks. -/
def parsePagesAux (data : List Nat) : Nat → Nat → Registry → Registry
  | 0, _, reg => reg
  | Nat.succ fuel, offset, reg =>
    if offset < data.length then
      if offset + 1024 > data.length then reg
      else parsePagesAux data fuel (offset + 1024) (parse_bdb_page data offset reg)
    else reg

/-- The little-endian 32-bit word at the start of the buffer
(the reinterpret_cast in parse_bdb_file on a little-endian machine). -/
def bdbMagic (data : List Nat) : Nat :=
  getByte data 0 + 256 * getByte data 1 + 65536 * getByte data 2 + 16777216 * getByte data 3

/-- parse_bdb_file: header-size check (sizeof(BDBHeader) = 16), magic check,
page scan, and success exactly when both registries are non-empty.  The
initial registry is the current state of the member maps (empty on a
first load). -/
def parse_bdb_file (data : List Nat) (reg0 : Registry) : Bool × Registry :=
  if data.length < 16 then (false, reg0)
  else if bdbMagic data ≠ 0x00061561 ∧ bdbMagic data ≠ 0x61150600 then (false, reg0)
  else
    let reg := parsePagesAux data data.length 0 reg0
    (!reg.master_keys.isEmpty && !reg.crypted_keys.isEmpty, reg)

/-- Counterexample buffer: valid little-endian magic, one well-formed
master-key marker at offset 4, no crypted-key marker, 1024 bytes total. -/
def c1buf : List Nat :=
  [0x61, 0x15, 0x06, 0x00, 109, 107, 101, 121] ++ List.replicate 1016 0

/-! AES-256-CBC decryption as performed through the EVP interface. -/

/-- Split a byte list into 16-byte cipher blocks. -/
def chunks16 (l : List Nat) : List (List Nat) :=
  if l = [] then [] else l.take 16 :: chunks16 (l.drop 16)
termination_by l.length
decreasing_by
  simp only [List.length_drop]
  have : l.length ≠ 0 := by simpa [List.length_eq_zero] using by assumption
  omega

/-- Byte-wise xor of two equal-length lists. -/
def xorBytes (a b : List Nat) : List Nat := List.zipWith (fun x y => x ^^^ y) a b

/-- CBC block chaining: each plaintext block is the block decryption of the
ciphertext block xored with the previous ciphertext block (the IV first). -/
def cbcDecGo (C : Crypto) (key : List Nat) : List Nat → List (List Nat) → List Nat
  | _, [] => []
  | prev, blk :: rest => xorBytes (C.aesDecBlock key blk) prev ++ cbcDecGo C key blk rest

/-- Raw CBC decryption of a ciphertext under a key and IV. -/
def cbcDec (C : Crypto) (key iv ct : List Nat) : List Nat :=
  cbcDecGo C key iv (chunks16 ct)

/-- PKCS7 padding removal: the last byte p must satisfy 1 ≤ p ≤ 16, and the
last p bytes must all equal p; the result drops those p bytes.  This is the
check EVP_DecryptFinal_ex performs; an empty plaintext has no padding block
and fails. -/
def unpadPKCS7 (pt : List Nat) : Option (List Nat) :=
  match pt.getLast? with
  | none => none
  | some p =>
    if 1 ≤ p ∧ p ≤ 16 ∧ p ≤ pt.length ∧ (pt.drop (pt.length - p)).all (fun b => b == p)
    then some (pt.take (pt.length - p)) else none

/-- The EVP_DecryptInit_ex / EVP_DecryptUpdate / EVP_DecryptFinal_ex call
sequence both decryption routines use: the first 16 bytes of the blob are
the IV, the remainder is the ciphertext; EVP fails when the ciphertext is
not a positive multiple of the block size or the padding is invalid. -/
def evpAes256CbcDecrypt (C : Crypto) (key blob : List Nat) : Option (List Nat) :=
  if blob.length < 16 then none
  else
    let iv := blob.take 16
    let ct := blob.drop 16
    if ct.length % 16 ≠ 0 ∨ ct.length = 0 then none
    else unpadPKCS7 (cbcDec C key iv ct)

/-- derive_key: PBKDF2 over the password with the given salt and iteration
count, abstracted into the Crypto parameter. -/
def derive_key (C : Crypto) (password : String) (salt : List Nat) (iterations : Nat) : List Nat :=
  C.kdf password salt iterations

/-- decrypt_master_key: derive a key from the password with the record salt
and iteration count; fail unless it is 32 bytes; then AES-256-CBC-decrypt
the encrypted blob with its leading 16 bytes as IV. -/
def decrypt_master_key (C : Crypto) (password : String) (mk : MasterKey) : Option (List Nat) :=
  let derived_key := derive_key C password mk.salt mk.derive_iterations
  if derived_key.length ≠ 32 then none
  else evpAes256CbcDecrypt C derived_key mk.encrypted_key

/-- decrypt_private_key: skip unless the master key is exactly 32 bytes and
the stored blob at least 16; then AES-256-CBC-decrypt with the leading 16
bytes of the blob as IV. -/
def decrypt_private_key (C : Crypto) (master_key : List Nat) (ck : CryptedKey) :
    Option (List Nat) :=
  if master_key.length ≠ 32 ∨ ck.encrypted_private_key.length < 16 then none
  else evpAes256CbcDecrypt C master_key ck.encrypted_private_key

/-! Wallet handler state and the load / test_password entry points. -/

/-- The mutable members of BitcoinCoreWallet relevant to loading and
password testing; the wallet file content is passed explicitly (none models
an inaccessible file). -/
structure WalletState where
  loaded : Bool
  wallet_data : List Nat
  master_keys : List (String × MasterKey)
  crypted_keys : List (String × CryptedKey)
  key_labels : List (String × String)
  testnet_mode : Bool
  last_error : String
deriving DecidableEq

def initState : WalletState :=
  { loaded := false, wallet_data := [], master_keys := [], crypted_keys := []
    key_labels := [], testnet_mode := false, last_error := "" }

def set_error (st : WalletState) (e : String) : WalletState := { st with last_error := e }

/-- load: immediately true when already loaded; otherwise read the file,
fail on inaccessible or empty content, parse the Berkeley DB data (which
populates the registries even on failure), and mark loaded on success. -/
def load (file : Option (List Nat)) (st : WalletState) : Bool × WalletState :=
  if st.loaded then (true, st)
  else
    match file with
    | none => (false, set_error st ("Cannot access wallet file: "))
    | some data =>
      if data.isEmpty then
        (false, set_error { st with wallet_data := data }
          ("Failed to read wallet file or file is empty"))
      else
        let res := parse_bdb_file data ⟨st.master_keys, st.crypted_keys⟩
        let st1 := { st with wallet_data := data,
                             master_keys := res.2.master_keys,
                             crypted_keys := res.2.crypted_keys }
        if res.1 then (true, { st1 with loaded := true })
        else (false, set_error st1 ("Failed to parse wallet.dat file - invalid format"))

/-- test_password: load if needed; false when no master key is present;
otherwise true exactly when some master-key record decrypts. -/
def test_password (C : Crypto) (file : Option (List Nat)) (password : String)
    (st : WalletState) : Bool × WalletState :=
  let r := if st.loaded then (true, st) else load file st
  if r.1 = false then (false, r.2)
  else if r.2.master_keys.isEmpty then
    (false, set_error r.2 ("No master keys found in wallet"))
  else
    (r.2.master_keys.any (fun p => (decrypt_master_key C password p.2).isSome), r.2)

/-! Base58 and the key / address text formats. -/

/-- The base58 alphabet from the code (static base58_alphabet). -/
def base58Alphabet : List Char :=
  ['1','2','3','4','5','6','7','8','9',
   'A','B','C','D','E','F','G','H','J','K','L','M','N','P','Q','R','S','T','U','V','W','X','Y','Z',
   'a','b','c','d','e','f','g','h','i','j','k','m','n','o','p','q','r','s','t','u','v','w','x','y','z']

/-- The inner for-loop of base58_encode processing one input byte: each
existing little-endian digit is multiplied by 256 with carry propagation;
returns the rewritten digits and the leftover carry. -/
def b58inner : Nat → List Nat → List Nat × Nat
  | carry, [] => ([], carry)
  | carry, d :: ds =>
    let c := carry + d * 256
    let r := b58inner (c / 58) ds
    (c % 58 :: r.1, r.2)

/-- One iteration of the byte loop of base58_encode: rewrite the digits,
then push base-58 digits of the leftover carry (the trailing while loop,
which is exactly Nat.digits 58 of the carry). -/
def b58push (digits : List Nat) (b : Nat) : List Nat :=
  let r := b58inner b digits
  r.1 ++ Nat.digits 58 r.2

/-- The full digit accumulation loop of base58_encode over the input bytes
that follow the leading zeros. -/
def b58digits (bytes : List Nat) : List Nat := bytes.foldl b58push []

/-- Character for one base-58 digit (every digit the encoder emits is
below 58, so the default is never used). -/
def b58chr (d : Nat) : Char := base58Alphabet.getD d '?'

/-- base58_encode as a character list: leading zero bytes become leading
one characters, then the little-endian digits are emitted most significant
first through the alphabet. -/
def base58_encode_chars (data : List Nat) : List Char :=
  let z := (data.takeWhile (fun b => b == 0)).length
  let digits := b58digits (data.drop z)
  List.replicate z '1' ++ digits.reverse.map b58chr

def base58_encode (data : List Nat) : String := String.mk (base58_encode_chars data)

/-- private_key_to_wif: version byte 0x80 (mainnet) or 0xEF (testnet), the
32 key bytes, a 0x01 marker when compressed, then the first 4 bytes of the
double SHA-256 as checksum, all base58-encoded. -/
def private_key_to_wif (C : Crypto) (testnet : Bool) (private_key : List Nat)
    (compressed : Bool) : String :=
  if private_key.length ≠ 32 then "" else
  let wif_data := (if testnet then 0xEF else 0x80) :: private_key ++ (if compressed then [1] else [])
  let hash2 := C.sha256 (C.sha256 wif_data)
  base58_encode (wif_data ++ hash2.take 4)

/-- private_key_to_public_key: secp256k1 point multiplication via OpenSSL,
abstracted; empty on a key that is not 32 bytes. -/
def private_key_to_public_key (C : Crypto) (private_key : List Nat) : List Nat :=
  if private_key.length ≠ 32 then [] else C.ecPubkey private_key

/-- public_key_to_address: optionally compress a 65-byte point to 33 bytes
with a parity prefix, hash160 it, prepend the version byte, append the
4-byte double-SHA256 checksum and base58-encode. -/
def public_key_to_address (C : Crypto) (testnet : Bool) (public_key : List Nat)
    (compressed : Bool) : String :=
  if public_key.isEmpty then "" else
  let pub_key :=
    if compressed ∧ public_key.length = 65 then
      (if public_key.getD 64 0 % 2 = 1 then 3 else 2) :: (public_key.drop 1).take 32
    else public_key
  let h160 := C.ripemd160 (C.sha256 pub_key)
  let address_data := (if testnet then 0x6F else 0x00) :: h160
  let hash2 := C.sha256 (C.sha256 address_data)
  base58_encode (address_data ++ hash2.take 4)

/-- Lowercase hexadecimal digit, as produced by std::hex. -/
def hexDigitChar (n : Nat) : Char := if n < 10 then Char.ofNat (48 + n) else Char.ofNat (87 + n)

/-- Two-digit lowercase hex rendering of each byte, concatenated. -/
def bytesToHex (l : List Nat) : String :=
  String.mk (l.foldr (fun b acc => hexDigitChar (b / 16) :: hexDigitChar (b % 16) :: acc) [])

/-- PrivateKeyInfo from bitcoin_core_wallet.h; the API transaction count is
non-negative in every response shape, so it is a Nat here. -/
structure PrivateKeyInfo where
  address : String
  private_key_hex : String
  private_key_wif : String
  public_key_hex : String
  compressed : Bool
  label : String
  balance_satoshis : Nat
  transaction_count : Nat
  has_balance : Bool
deriving DecidableEq

/-- Label lookup in the key_labels_ map; empty when absent. -/
def lookupLabel (labels : List (String × String)) (addr : String) : String :=
  (labels.lookup addr).getD ""

/-- The loop body of extract_private_keys for one crypted-key record: no
entries when decryption is skipped or fails, otherwise a compressed entry
and, when the two addresses differ, an uncompressed variant as well. -/
def entriesForCryptedKey (C : Crypto) (testnet : Bool) (labels : List (String × String))
    (master_key : List Nat) (ck : CryptedKey) : List PrivateKeyInfo :=
  match decrypt_private_key C master_key ck with
  | none => []
  | some private_key_bytes =>
    let public_key := private_key_to_public_key C private_key_bytes
    let compressed_addr := public_key_to_address C testnet public_key true
    let uncompressed_addr := public_key_to_address C testnet public_key false
    let base : PrivateKeyInfo :=
      { address := compressed_addr
        private_key_hex := bytesToHex private_key_bytes
        private_key_wif := private_key_to_wif C testnet private_key_bytes true
        public_key_hex := bytesToHex public_key
        compressed := true
        label := lookupLabel labels compressed_addr
        balance_satoshis := 0
        transaction_count := 0
        has_balance := false }
    base :: (if compressed_addr ≠ uncompressed_addr then
      [{ base with
           address := uncompressed_addr
           compressed := false
           private_key_wif := private_key_to_wif C testnet private_key_bytes false
           label := lookupLabel labels uncompressed_addr }]
      else [])

/-- The crypted-key loop of extract_private_keys over the record sequence,
with an already unlocked master key. -/
def extract_from_records (C : Crypto) (testnet : Bool) (labels : List (String × String))
    (master_key : List Nat) (records : List CryptedKey) : List PrivateKeyInfo :=
  records.foldr (fun ck acc => entriesForCryptedKey C testnet labels master_key ck ++ acc) []

/-- The master-key search loop at the top of extract_private_keys: first
record that decrypts wins. -/
def findMasterKey (C : Crypto) (password : String) :
    List (String × MasterKey) → Option (List Nat)
  | [] => none
  | mk :: rest =>
    match decrypt_master_key C password mk.2 with
    | some k => some k
    | none => findMasterKey C password rest

/-- extract_private_keys: load if needed, unlock a master key, then run the
record loop over the crypted-key registry values. -/
def extract_private_keys (C : Crypto) (file : Option (List Nat)) (password : String)
    (st : WalletState) : List PrivateKeyInfo × WalletState :=
  let r := if st.loaded then (true, st) else load file st
  if r.1 = false then ([], r.2)
  else
    match findMasterKey C password r.2.master_keys with
    | none => ([], set_error r.2 ("Failed to decrypt master key with provided password"))
    | some master_key =>
      (extract_from_records C r.2.testnet_mode r.2.key_labels master_key
        (r.2.crypted_keys.map Prod.snd), r.2)

/-! Balance verification: JSON values, the HTTP environment, and the three
provider queries with their fallback chain. -/

/-- JSON values as handled through jsoncpp. -/
inductive Json where
  | null : Json
  | num : Nat → Json
  | str : String → Json
  | obj : List (String × Json) → Json
  | arr : List Json → Json

/-- Json::Value::isMember, false on every non-object. -/
def Json.isMember : Json → String → Bool
  | Json.obj fields, k => fields.any (fun p => p.1 == k)
  | _, _ => false

/-- Const Json::Value::operator[], null on a missing member or non-object. -/
def Json.get : Json → String → Json
  | Json.obj fields, k =>
    match fields.lookup k with
    | some v => v
    | none => Json.null
  | _, _ => Json.null

/-- Numeric extraction (asUInt64 / asInt), zero on non-numbers. -/
def Json.asNat : Json → Nat
  | Json.num n => n
  | _ => 0

/-- The network, abstracted: a URL maps to nothing (network failure or
timeout) or to an HTTP status code plus the parse result of the body
(none when the body is not JSON). -/
def Http : Type := String → Option (Nat × Option Json)

def blockstreamUrl (testnet : Bool) (addr : String) : String :=
  (if testnet then "https://blockstream.info/testnet/api" else "https://blockstream.info/api")
    ++ "/address/" ++ addr

def blockchairUrl (addr : String) : String :=
  "https://api.blockchair.com/bitcoin" ++ "/dashboards/address/" ++ addr

def blockcypherUrl (testnet : Bool) (apiKey : Option String) (addr : String) : String :=
  (if testnet then "https://api.blockcypher.com/v1/btc/test3"
   else "https://api.blockcypher.com/v1/btc/main")
    ++ "/addrs/" ++ addr ++ "/balance"
    ++ (match apiKey with | some k => "?token=" ++ k | none => "")

/-- query_blockstream_api: 200 plus parseable JSON required; succeeds only
when the chain_stats member is present, reading funded_txo_sum and
tx_count with default 0 (the caller pre-zeroes the out-parameters). -/
def query_blockstream_api (http : Http) (testnet : Bool) (addr : String) :
    Option (Nat × Nat) :=
  match http (blockstreamUrl testnet addr) with
  | none => none
  | some (code, body) =>
    if code ≠ 200 then none
    else
      match body with
      | none => none
      | some root =>
        if root.isMember "chain_stats" then
          let stats := root.get "chain_stats"
          some ((if stats.isMember "funded_txo_sum" then (stats.get "funded_txo_sum").asNat else 0),
                (if stats.isMember "tx_count" then (stats.get "tx_count").asNat else 0))
        else none

/-- query_blockchair_api: 200 plus parseable JSON required; succeeds only
when data is present and holds the queried address, then reads balance and
transaction_count from its address object with default 0. -/
def query_blockchair_api (http : Http) (addr : String) : Option (Nat × Nat) :=
  match http (blockchairUrl addr) with
  | none => none
  | some (code, body) =>
    if code ≠ 200 then none
    else
      match body with
      | none => none
      | some root =>
        if root.isMember "data" && (root.get "data").isMember addr then
          let addr_data := ((root.get "data").get addr).get "address"
          some ((if addr_data.isMember "balance" then (addr_data.get "balance").asNat else 0),
                (if addr_data.isMember "transaction_count" then
                   (addr_data.get "transaction_count").asNat else 0))
        else none

/-- query_blockcypher_api: 200 plus parseable JSON required, and then it
always succeeds, reading balance and n_tx with default 0 when absent. -/
def query_blockcypher_api (http : Http) (testnet : Bool) (apiKey : Option String)
    (addr : String) : Option (Nat × Nat) :=
  match http (blockcypherUrl testnet apiKey addr) with
  | none => none
  | some (code, body) =>
    if code ≠ 200 then none
    else
      match body with
      | none => none
      | some root =>
        some ((if root.isMember "balance" then (root.get "balance").asNat else 0),
              (if root.isMember "n_tx" then (root.get "n_tx").asNat else 0))

/-- query_address_balance: the three providers in fixed order, first
success wins. -/
def query_address_balance (http : Http) (testnet : Bool) (apiKey : Option String)
    (addr : String) : Option (Nat × Nat) :=
  match query_blockstream_api http testnet addr with
  | some r => some r
  | none =>
    match query_blockchair_api http addr with
    | some r => some r
    | none =>
      match query_blockcypher_api http testnet apiKey addr with
      | some r => some r
      | none => none

/-- The loop body of check_balances for one key: a successful query bumps
the success counter and writes the balance fields, setting has_balance to
balance > 0; a failed query leaves the entry untouched. -/
def checkBalancesStep (http : Http) (testnet : Bool) (apiKey : Option String)
    (acc : Nat × List PrivateKeyInfo) (k : PrivateKeyInfo) : Nat × List PrivateKeyInfo :=
  match query_address_balance http testnet apiKey k.address with
  | some br =>
    (acc.1 + 1,
     acc.2 ++ [{ k with balance_satoshis := br.1, transaction_count := br.2,
                        has_balance := decide (br.1 > 0) }])
  | none => (acc.1, acc.2 ++ [k])

/-- check_balances: false on an empty key list; otherwise query every
address, update the succeeding entries, count successes, and return true
exactly when at least one query succeeded. -/
def check_balances (http : Http) (testnet : Bool) (apiKey : Option String)
    (keys : List PrivateKeyInfo) : Bool × List PrivateKeyInfo :=
  if keys.isEmpty then (false, keys)
  else
    let res := keys.foldl (checkBalancesStep http testnet apiKey) (0, [])
    (decide (res.1 > 0), res.2)

/-! Decoding, modelled from the specification: the code ships no decoder,
but the spec fixes base58check decoding and the WIF layout. -/

/-- Big-endian byte value of a list (the number the bytes spell). -/
def bytesToNat (l : List Nat) : Nat := l.foldl (fun acc b => acc * 256 + b) 0

/-- Position of a character in the base58 alphabet; 58 when absent. -/
def b58val (c : Char) : Nat := base58Alphabet.indexOf c

/-- Big-endian base-58 value of a character list. -/
def decodeVal (chars : List Char) : Nat := chars.foldl (fun a c => a * 58 + b58val c) 0

/-- Minimal big-endian byte rendering of a number. -/
def natToBytesBE (n : Nat) : List Nat := (Nat.digits 256 n).reverse

/-- Modelled from the spec: base58check decoding (section 4.4; the code
contains no decoder).  Leading one characters become leading zero bytes,
the rest is read as a base-58 big-endian number, and the trailing 4 bytes
must equal the first 4 bytes of the double SHA-256 of the body. -/
def base58check_decode (C : Crypto) (s : List Char) : Option (List Nat) :=
  let z := (s.takeWhile (fun c => c == '1')).length
  let rest := s.drop z
  if rest.all (fun c => decide (b58val c < 58)) then
    let payload := List.replicate z 0 ++ natToBytesBE (decodeVal rest)
    if payload.length < 4 then none
    else
      let body := payload.take (payload.length - 4)
      let checksum := payload.drop (payload.length - 4)
      if (C.sha256 (C.sha256 body)).take 4 = checksum then some body else none
  else none

/-- Modelled from the spec: WIF decoding (sections 4.4 and 8; the code
contains no decoder).  After base58check decoding, the first byte must be
the network version byte; 32 remaining bytes mean an uncompressed key, 33
ending in 0x01 mean a compressed one. -/
def wif_decode (C : Crypto) (testnet : Bool) (s : String) : Option (List Nat × Bool) :=
  match base58check_decode C s.data with
  | none => none
  | some body =>
    match body with
    | [] => none
    | ver :: rest =>
      if ver = (if testnet then 0xEF else 0x80) then
        if rest.length = 32 then some (rest, false)
        else if rest.length = 33 ∧ rest.getLast? = some 1 then some (rest.take 32, true)
        else none
      else none

/-! Specification-side descriptions used for refinement statements. -/

/-- Specification-side description of a successful master-key decryption
(spec section 4.2): the KDF output for the record salt and iteration count
is the key, the first 16 bytes of the encrypted blob are the IV, the
remainder is the ciphertext, and success is valid padding removal on the
CBC-decrypted blocks. -/
def masterKeyDecryptSpec (C : Crypto) (password : String) (mk : MasterKey)
    (out : List Nat) : Prop :=
  let key := C.kdf password mk.salt mk.derive_iterations
  let ct := mk.encrypted_key.drop 16
  let pt := cbcDec C key (mk.encrypted_key.take 16) ct
  ct ≠ [] ∧ ct.length % 16 = 0 ∧
  ∃ p, pt.getLast? = some p ∧ 1 ≤ p ∧ p ≤ 16 ∧ p ≤ pt.length ∧
    (∀ b ∈ pt.drop (pt.length - p), b = p) ∧ out = pt.take (pt.length - p)

/-! Concrete instances used to witness the hypotheses of the theorems. -/

/-- A degenerate Crypto instance: constant KDF and hashes, identity block
decryption; enough to exercise the plumbing on concrete inputs. -/
def cryptoW : Crypto :=
  { kdf := fun _ _ _ => List.replicate 32 0
    aesDecBlock := fun _ blk => blk
    sha256 := fun _ => List.replicate 32 0
    ripemd160 := fun _ => List.replicate 20 0
    ecPubkey := fun _ => List.replicate 65 2 }

/-- A master-key record whose 48-byte blob is a zero IV followed by a
single ciphertext block that decrypts, under cryptoW, to valid padding. -/
def mkRecordW : MasterKey :=
  { encrypted_key := List.replicate 16 0 ++ List.replicate 16 1
    salt := [], derive_iterations := 25000, derive_method := 0 }

/-- A 16-byte buffer with a valid little-endian magic and nothing else. -/
def magicOnlyBuf : List Nat := [0x61, 0x15, 0x06, 0x00] ++ List.replicate 12 0

/-- A 20-byte buffer with a valid little-endian magic and nothing else. -/
def magicOnlyBuf20 : List Nat := [0x61, 0x15, 0x06, 0x00] ++ List.replicate 16 0

/-- A wallet state that is already loaded, with empty registries. -/
def stLoadedW : WalletState := { initState with loaded := true }

/-- A recovered-key entry holding only an address. -/
def keyInfoW : PrivateKeyInfo :=
  { address := "a", private_key_hex := "", private_key_wif := "", public_key_hex := ""
    compressed := true, label := "", balance_satoshis := 0, transaction_count := 0
    has_balance := false }

/-- A network where only the blockcypher endpoint for address a answers,
with an empty JSON object. -/
def httpW : Http := fun url =>
  if url = blockcypherUrl false none "a" then some (200, some (Json.obj [])) else none

/-- A network where every URL answers 200 with an empty JSON object. -/
def httpAllEmptyW : Http := fun _ => some (200, some (Json.obj []))

/-- An empty crypted-key record (blob shorter than 16 bytes). -/
def ckEmptyW : CryptedKey := { public_key := [], encrypted_private_key := [] }

/-! Bookkeeping mirrors of the page loop, used to state which indices the
scan visits and where the master-key markers fire. -/

/-- The indices visited by the page loop, page by page, mirroring
parsePagesAux. -/
def scanRanges (data : List Nat) : Nat → Nat → List Nat
  | 0, _ => []
  | Nat.succ fuel, offset =>
    if offset < data.length then
      if offset + 1024 > data.length then []
      else pageScanRange data offset ++ scanRanges data fuel (offset + 1024)
    else []

/-- All indices the parse of a buffer scans, in visiting order. -/
def scannedIndices (data : List Nat) : List Nat := scanRanges data data.length 0

/-- Whether the scan stores a master-key record at index i: marker match
plus the room check. -/
def mkeyHitB (data : List Nat) (i : Nat) : Bool :=
  decide (mkeyMarkerAt data i ∧ i + 4 + 64 < data.length)

/-- The scanned indices at which a master-key record is stored. -/
def mkeyHits (data : List Nat) : List Nat :=
  (scannedIndices data).filter (mkeyHitB data)

/-- Shape invariant of the master-key map: empty or a single record under
the identifier "default". -/
def MKShape (m : List (String × MasterKey)) : Prop :=
  m = [] ∨ ∃ v, m = [("default", v)]

/-! Theorems. -/

/-- Success characterization of PKCS7 padding removal. -/
lemma unpadPKCS7_eq_some (pt out : List Nat) :
    unpadPKCS7 pt = some out ↔
      ∃ p, pt.getLast? = some p ∧ 1 ≤ p ∧ p ≤ 16 ∧ p ≤ pt.length ∧
        (∀ b ∈ pt.drop (pt.length - p), b = p) ∧ out = pt.take (pt.length - p) := by
  unfold unpadPKCS7
  cases h : pt.getLast? with
  | none => simp
  | some p =>
    dsimp only
    by_cases hc : 1 ≤ p ∧ p ≤ 16 ∧ p ≤ pt.length ∧
        (pt.drop (pt.length - p)).all (fun b => b == p)
    · rw [if_pos hc]
      obtain ⟨h1, h2, h3, h4⟩ := hc
      constructor
      · intro hout
        refine ⟨p, rfl, h1, h2, h3, ?_, (Option.some.inj hout).symm⟩
        intro b hb
        have := List.all_eq_true.mp h4 b hb
        exact beq_iff_eq.mp this
      · rintro ⟨q, hq, _, _, _, _, hout⟩
        cases Option.some.inj hq
        exact congrArg some hout.symm
    · rw [if_neg hc]
      constructor
      · intro hout; cases hout
      · rintro ⟨q, hq, hq1, hq2, hq3, hall, _⟩
        cases Option.some.inj hq
        exact absurd ⟨hq1, hq2, hq3, List.all_eq_true.mpr
          (fun b hb => beq_iff_eq.mpr (hall b hb))⟩ hc

/-- C3: decrypt_master_key derives a 32-byte key from the password via the
KDF with the record salt and iteration count, performs AES-256-CBC
decryption with the first 16 bytes of the encrypted blob as IV and the
remainder as ciphertext, and succeeds exactly when padding removal is
valid. -/
theorem decrypt_master_key_correct (C : Crypto) (password : String) (mk : MasterKey)
    (out : List Nat)
    (hkdf : (C.kdf password mk.salt mk.derive_iterations).length = 32)
    (hblob : 16 ≤ mk.encrypted_key.length) :
    decrypt_master_key C password mk = some out ↔ masterKeyDecryptSpec C password mk out := by
  unfold decrypt_master_key derive_key evpAes256CbcDecrypt masterKeyDecryptSpec
  rw [if_neg (by rw [hkdf]; exact fun h => h rfl)]
  rw [if_neg (by omega)]
  by_cases hct : (mk.encrypted_key.drop 16).length % 16 ≠ 0 ∨ (mk.encrypted_key.drop 16).length = 0
  · rw [if_pos hct]
    simp only [false_iff, reduceCtorEq]
    rintro ⟨hne, hmod, -⟩
    rcases hct with hct | hct
    · exact hct hmod
    · exact hne (List.length_eq_zero.mp hct)
  · rw [if_neg hct]
    push_neg at hct
    rw [unpadPKCS7_eq_some]
    constructor
    · rintro ⟨p, hp⟩
      exact ⟨fun h => hct.2 (by rw [h]; rfl), hct.1, p, hp⟩
    · rintro ⟨-, -, p, hp⟩
      exact ⟨p, hp⟩

/-- Witness for C3 at a concrete degenerate cipher. -/
theorem decrypt_master_key_correct_witness :
    (cryptoW.kdf "x" mkRecordW.salt mkRecordW.derive_iterations).length = 32 ∧
    16 ≤ mkRecordW.encrypted_key.length ∧
    (decrypt_master_key cryptoW "x" mkRecordW = some (List.replicate 15 1) ↔
      masterKeyDecryptSpec cryptoW "x" mkRecordW (List.replicate 15 1)) :=
  ⟨by decide, by decide,
    decrypt_master_key_correct cryptoW "x" mkRecordW (List.replicate 15 1)
      (by decide) (by decide)⟩

/-- C2: on a loaded container, test_password is true exactly when some
master-key record decrypts under the password; a wrong password is the
plain boolean false. -/
theorem test_password_iff_some_master_key (C : Crypto) (file : Option (List Nat))
    (password : String) (st : WalletState) (h : st.loaded = true) :
    (test_password C file password st).1 = true ↔
      ∃ p ∈ st.master_keys, (decrypt_master_key C password p.2).isSome = true := by
  unfold test_password
  rw [h]
  simp only [if_true, reduceIte]
  by_cases he : st.master_keys.isEmpty
  · rw [if_pos he]
    simp only [List.isEmpty_iff] at he
    simp [he]
  · rw [if_neg he]
    simp [List.any_eq_true]

/-- Witness for C2 at a loaded state with an empty registry. -/
theorem test_password_iff_some_master_key_witness :
    stLoadedW.loaded = true ∧
    ((test_password cryptoW none "x" stLoadedW).1 = true ↔
      ∃ p ∈ stLoadedW.master_keys, (decrypt_master_key cryptoW "x" p.2).isSome = true) :=
  ⟨rfl, test_password_iff_some_master_key cryptoW none "x" stLoadedW rfl⟩

/-- A successful load marks the state loaded. -/
lemma load_true_loaded (file : Option (List Nat)) (st : WalletState)
    (h : (load file st).1 = true) : (load file st).2.loaded = true := by
  unfold load at *
  by_cases hl : st.loaded
  · simp [hl]
  · cases file with
    | none => simp [hl] at h
    | some data =>
      by_cases he : data.isEmpty
      · simp [hl, he] at h
      · by_cases hp : (parse_bdb_file data ⟨st.master_keys, st.crypted_keys⟩).1
        · simp [hl, he, hp]
        · simp [hl, he, hp] at h

/-- C8: load is idempotent; after a successful load a second call is a
no-op returning true, with the registry and hence both record counts
unchanged. -/
theorem load_idempotent (file : Option (List Nat)) (st : WalletState)
    (h : (load file st).1 = true) :
    load file (load file st).2 = (true, (load file st).2) ∧
    (load file (load file st).2).2.master_keys.length = (load file st).2.master_keys.length ∧
    (load file (load file st).2).2.crypted_keys.length = (load file st).2.crypted_keys.length := by
  have hl := load_true_loaded file st h
  have key : ∀ s : WalletState, s.loaded = true → load file s = (true, s) := by
    intro s hs
    unfold load
    simp [hs]
  have heq := key _ hl
  exact ⟨heq, by rw [heq], by rw [heq]⟩

/-- Witness for C8 at an already loaded state. -/
theorem load_idempotent_witness :
    (load none stLoadedW).1 = true ∧
    load none (load none stLoadedW).2 = (true, (load none stLoadedW).2) :=
  ⟨by decide, (load_idempotent none stLoadedW (by decide)).1⟩

/-- C5: a record whose blob is shorter than 16 bytes, or processed with a
master key that is not 32 bytes, contributes no entries, and removing it
from the record sequence leaves the extraction of the others unchanged. -/
theorem crypted_key_skipped (C : Crypto) (testnet : Bool) (labels : List (String × String))
    (mk : List Nat) (ck : CryptedKey) (l1 l2 : List CryptedKey)
    (h : mk.length ≠ 32 ∨ ck.encrypted_private_key.length < 16) :
    entriesForCryptedKey C testnet labels mk ck = [] ∧
    extract_from_records C testnet labels mk (l1 ++ ck :: l2) =
      extract_from_records C testnet labels mk (l1 ++ l2) := by
  have hskip : entriesForCryptedKey C testnet labels mk ck = [] := by
    unfold entriesForCryptedKey decrypt_private_key
    rw [if_pos h]
  refine ⟨hskip, ?_⟩
  unfold extract_from_records
  rw [List.foldr_append, List.foldr_append, List.foldr_cons, hskip, List.nil_append]

/-- Witness for C5 at an empty master key and an empty record. -/
theorem crypted_key_skipped_witness :
    (List.length ([] : List Nat) ≠ 32 ∨ ckEmptyW.encrypted_private_key.length < 16) ∧
    entriesForCryptedKey cryptoW false [] [] ckEmptyW = [] ∧
    extract_from_records cryptoW false [] [] ([] ++ ckEmptyW :: []) =
      extract_from_records cryptoW false [] [] ([] ++ []) :=
  ⟨Or.inl (by decide), crypted_key_skipped cryptoW false [] [] ckEmptyW [] [] (Or.inl (by decide))⟩

/-- C10: the blockcypher query accepts any HTTP-200 JSON body, reporting
balance 0 and transaction count 0 when neither field is present, while the
blockstream and blockchair queries fail on a 200 JSON body lacking their
expected shape. -/
theorem blockcypher_accepts_any_json (http : Http) (testnet : Bool) (apiKey : Option String)
    (addr : String) (root : Json)
    (h200 : http (blockcypherUrl testnet apiKey addr) = some (200, some root))
    (hb : root.isMember "balance" = false)
    (hn : root.isMember "n_tx" = false) :
    query_blockcypher_api http testnet apiKey addr = some (0, 0) ∧
    (∀ r2, http (blockstreamUrl testnet addr) = some (200, some r2) →
       r2.isMember "chain_stats" = false →
       query_blockstream_api http testnet addr = none) ∧
    (∀ r2, http (blockchairUrl addr) = some (200, some r2) →
       (r2.isMember "data" && (r2.get "data").isMember addr) = false →
       query_blockchair_api http addr = none) := by
  refine ⟨?_, ?_, ?_⟩
  · unfold query_blockcypher_api
    rw [h200]
    simp [hb, hn]
  · intro r2 hr2 hcs
    unfold query_blockstream_api
    rw [hr2]
    simp [hcs]
  · intro r2 hr2 hd
    unfold query_blockchair_api
    rw [hr2]
    simp [hd]

/-- Witness for C10 on a network answering 200 with an empty object. -/
theorem blockcypher_accepts_any_json_witness :
    httpAllEmptyW (blockcypherUrl false none "a") = some (200, some (Json.obj [])) ∧
    query_blockcypher_api httpAllEmptyW false none "a" = some (0, 0) :=
  ⟨rfl, (blockcypher_accepts_any_json httpAllEmptyW false none "a" (Json.obj [])
    rfl rfl rfl).1⟩

/-- The success counter of the balance loop counts exactly the keys whose
address query succeeds. -/
lemma checkBalances_count (http : Http) (testnet : Bool) (apiKey : Option String) :
    ∀ (keys : List PrivateKeyInfo) (n : Nat) (l : List PrivateKeyInfo),
      (keys.foldl (checkBalancesStep http testnet apiKey) (n, l)).1 =
        n + keys.countP
          (fun k => (query_address_balance http testnet apiKey k.address).isSome) := by
  intro keys
  induction keys with
  | nil => intro n l; simp
  | cons k ks ih =>
    intro n l
    rw [List.foldl_cons, List.countP_cons]
    cases hq : query_address_balance http testnet apiKey k.address with
    | some br =>
      simp only [checkBalancesStep, hq]
      rw [ih]
      simp
      omega
    | none =>
      simp only [checkBalancesStep, hq]
      rw [ih]
      simp

/-- C9: check_balances is true exactly when at least one address query
succeeds, and per address the providers are consulted in the order
blockstream, blockchair, blockcypher with the first success winning. -/
theorem check_balances_correct (http : Http) (testnet : Bool) (apiKey : Option String)
    (keys : List PrivateKeyInfo) (addr : String) :
    ((check_balances http testnet apiKey keys).1 = true ↔
       ∃ k ∈ keys, (query_address_balance http testnet apiKey k.address).isSome = true) ∧
    (∀ r, query_blockstream_api http testnet addr = some r →
       query_address_balance http testnet apiKey addr = some r) ∧
    (∀ r, query_blockstream_api http testnet addr = none →
       query_blockchair_api http addr = some r →
       query_address_balance http testnet apiKey addr = some r) ∧
    (∀ r, query_blockstream_api http testnet addr = none →
       query_blockchair_api http addr = none →
       query_blockcypher_api http testnet apiKey addr = some r →
       query_address_balance http testnet apiKey addr = some r) ∧
    (query_blockstream_api http testnet addr = none →
     query_blockchair_api http addr = none →
     query_blockcypher_api http testnet apiKey addr = none →
     query_address_balance http testnet apiKey addr = none) := by
  refine ⟨?_, ?_, ?_, ?_, ?_⟩
  · unfold check_balances
    cases keys with
    | nil => simp
    | cons k ks =>
      rw [if_neg (by simp)]
      dsimp only
      rw [checkBalances_count]
      rw [decide_eq_true_iff]
      rw [Nat.zero_add]
      exact List.countP_pos_iff
  · intro r h1
    unfold query_address_balance
    rw [h1]
  · intro r h1 h2
    unfold query_address_balance
    rw [h1, h2]
  · intro r h1 h2 h3
    unfold query_address_balance
    rw [h1, h2, h3]
  · intro h1 h2 h3
    unfold query_address_balance
    rw [h1, h2, h3]

/-- Witness for C9: a single key whose address only the third provider can
answer is a successful overall check. -/
theorem check_balances_correct_witness :
    (check_balances httpW false none [keyInfoW]).1 = true :=
  (check_balances_correct httpW false none [keyInfoW] "a").1.mpr
    ⟨keyInfoW, List.mem_singleton.mpr rfl, by decide⟩

/-! Arithmetic of the base58 digit loop. -/

/-- Processing one byte on a minimal little-endian digit list produces the
minimal digit list of the combined value. -/
lemma b58inner_digits (v : Nat) : ∀ c : Nat,
    (b58inner c (Nat.digits 58 v)).1 ++ Nat.digits 58 (b58inner c (Nat.digits 58 v)).2 =
      Nat.digits 58 (c + 256 * v) := by
  induction v using Nat.strong_induction_on with
  | _ v ih =>
    intro c
    rcases Nat.eq_zero_or_pos v with hv | hv
    · subst hv
      simp [b58inner]
    · rw [Nat.digits_def' (by norm_num : (1:Nat) < 58) hv]
      simp only [b58inner]
      rw [List.cons_append]
      rw [ih (v / 58) (Nat.div_lt_self hv (by norm_num)) ((c + v % 58 * 256) / 58)]
      rw [Nat.digits_def' (by norm_num : (1:Nat) < 58) (show 0 < c + 256 * v by omega)]
      have h1 : (c + v % 58 * 256) % 58 = (c + 256 * v) % 58 := by omega
      have h2 : (c + v % 58 * 256) / 58 + 256 * (v / 58) = (c + 256 * v) / 58 := by omega
      rw [h1, h2]

/-- The byte loop of base58_encode, started on the minimal digits of v,
computes the minimal digits of the big-endian value accumulated from v. -/
lemma foldl_b58push (bytes : List Nat) : ∀ v : Nat,
    bytes.foldl b58push (Nat.digits 58 v) =
      Nat.digits 58 (bytes.foldl (fun a b => a * 256 + b) v) := by
  induction bytes with
  | nil => intro v; rfl
  | cons b bs ih =>
    intro v
    rw [List.foldl_cons, List.foldl_cons]
    have hpush : b58push (Nat.digits 58 v) b = Nat.digits 58 (v * 256 + b) := by
      unfold b58push
      rw [b58inner_digits v b]
      ring_nf
    rw [hpush, ih]

/-- The digit list built by base58_encode is the minimal base-58 digit
list of the big-endian value of the input bytes. -/
lemma b58digits_eq (bytes : List Nat) :
    b58digits bytes = Nat.digits 58 (bytesToNat bytes) := by
  have := foldl_b58push bytes 0
  simpa [b58digits, bytesToNat] using this

/-- Big-endian accumulation is Nat.ofDigits of the reversed list. -/
lemma foldl_mul_add (b : Nat) (l : List Nat) :
    l.foldl (fun a d => a * b + d) 0 = Nat.ofDigits b l.reverse := by
  induction l using List.reverseRecOn with
  | nil => simp [Nat.ofDigits_nil]
  | append_singleton xs x ih =>
    rw [List.foldl_append, List.foldl_cons, List.foldl_nil, ih]
    rw [List.reverse_append, List.reverse_singleton, List.singleton_append, Nat.ofDigits_cons]
    ring

/-- bytesToNat through Nat.ofDigits. -/
lemma bytesToNat_eq_ofDigits (l : List Nat) :
    bytesToNat l = Nat.ofDigits 256 l.reverse := foldl_mul_add 256 l

/-- A byte list with a nonzero first byte has a positive value. -/
lemma bytesToNat_pos (x : Nat) (l : List Nat) (hx : x ≠ 0) : 0 < bytesToNat (x :: l) := by
  rw [bytesToNat_eq_ofDigits, List.reverse_cons, Nat.ofDigits_append]
  have h1 : (0:Nat) < 256 ^ l.reverse.length := Nat.pos_pow_of_pos _ (by norm_num)
  have h2 : Nat.ofDigits 256 [x] = x := by simp [Nat.ofDigits_cons, Nat.ofDigits_nil]
  rw [h2]
  have := Nat.mul_pos h1 (Nat.pos_of_ne_zero hx)
  omega

/-- The alphabet inverts on every digit below 58. -/
lemma b58val_b58chr : ∀ d : Nat, d < 58 → b58val (b58chr d) = d := by decide

/-- Only digit 0 maps to the character 1. -/
lemma b58chr_ne_one : ∀ d : Nat, d < 58 → d ≠ 0 → b58chr d ≠ '1' := by decide

/-- Reading back the emitted characters of a digit list recovers its
value. -/
lemma decodeVal_digits (ds : List Nat) (h : ∀ d ∈ ds, d < 58) :
    decodeVal (ds.reverse.map b58chr) = Nat.ofDigits 58 ds := by
  unfold decodeVal
  rw [List.foldl_map]
  have hcongr : (ds.reverse.map (fun d => b58val (b58chr d))) = ds.reverse.map id := by
    apply List.map_congr_left
    intro d hd
    exact b58val_b58chr d (h d (List.mem_reverse.mp hd))
  have : ds.reverse.foldl (fun a d => a * 58 + b58val (b58chr d)) 0 =
      ds.reverse.foldl (fun a d => a * 58 + d) 0 := by
    rw [← List.foldl_map (fun d => b58val (b58chr d)) (fun a d => a * 58 + d)]
    rw [hcongr, List.map_id]
  rw [this, foldl_mul_add, List.reverse_reverse]

/-- The character block emitted for a positive value: nonempty, does not
begin with the character 1, consists of valid alphabet characters, and
decodes back to the value. -/
lemma digitChars_spec (V : Nat) (hV : V ≠ 0) :
    ((Nat.digits 58 V).reverse.map b58chr) ≠ [] ∧
    ((Nat.digits 58 V).reverse.map b58chr).takeWhile (fun c => c == '1') = [] ∧
    ((Nat.digits 58 V).reverse.map b58chr).all (fun c => decide (b58val c < 58)) = true ∧
    decodeVal ((Nat.digits 58 V).reverse.map b58chr) = V := by
  have hds : Nat.digits 58 V ≠ [] := Nat.digits_ne_nil_iff_ne_zero.mpr hV
  have hlt : ∀ d ∈ Nat.digits 58 V, d < 58 :=
    fun d hd => Nat.digits_lt_base (by norm_num) hd
  have hlast : (Nat.digits 58 V).getLast hds ≠ 0 := Nat.getLast_digit_ne_zero 58 hV
  have hne : ((Nat.digits 58 V).reverse.map b58chr) ≠ [] := by
    simp [hds]
  refine ⟨hne, ?_, ?_, ?_⟩
  · cases hrev : (Nat.digits 58 V).reverse with
    | nil => exact absurd (by simpa using hrev) hds
    | cons c t =>
      have hc : c = (Nat.digits 58 V).getLast hds := by
        have h1 : (Nat.digits 58 V).reverse.head? = some c := by rw [hrev]; rfl
        rw [List.head?_reverse] at h1
        rw [List.getLast?_eq_getLast _ hds] at h1
        exact (Option.some.inj h1).symm
      have hcne : b58chr c ≠ '1' := by
        apply b58chr_ne_one
        · apply hlt
          rw [hc]
          exact List.getLast_mem hds
        · rw [hc]; exact hlast
      rw [List.map_cons, List.takeWhile_cons]
      simp [hcne]
  · rw [List.all_eq_true]
    intro c hc
    obtain ⟨d, hd, rfl⟩ := List.mem_map.mp hc
    have := hlt d (List.mem_reverse.mp hd)
    simp [b58val_b58chr d this, this]
  · rw [decodeVal_digits _ hlt, Nat.ofDigits_digits]

/-- Dropping as many elements as the takeWhile block leaves dropWhile. -/
lemma drop_takeWhile_length (p : Nat → Bool) (l : List Nat) :
    l.drop (l.takeWhile p).length = l.dropWhile p := by
  induction l with
  | nil => rfl
  | cons a t ih =>
    by_cases h : p a
    · simp [List.takeWhile_cons, List.dropWhile_cons, h, ih]
    · simp [List.takeWhile_cons, List.dropWhile_cons, h]

/-- The head of a dropWhile block fails the predicate. -/
lemma head_dropWhile_false (p : Nat → Bool) :
    ∀ (l : List Nat) (x : Nat) (t : List Nat), l.dropWhile p = x :: t → p x = false := by
  intro l
  induction l with
  | nil => intro x t h; cases h
  | cons a as ih =>
    intro x t h
    by_cases ha : p a
    · rw [List.dropWhile_cons, if_pos ha] at h
      exact ih x t h
    · rw [List.dropWhile_cons, if_neg ha] at h
      cases h
      exact Bool.of_not_eq_true ha

/-- takeWhile walks through a replicate block whose element satisfies the
predicate. -/
lemma takeWhile_replicate_append (p : Char → Bool) (c : Char) (h : p c = true)
    (n : Nat) (l : List Char) :
    (List.replicate n c ++ l).takeWhile p = List.replicate n c ++ l.takeWhile p := by
  induction n with
  | zero => simp
  | succ n ih => simp [List.replicate_succ, List.takeWhile_cons, h, ih]

/-- C7: base58 encoding turns each leading zero byte into exactly one
leading 1 character, and the remaining characters spell the remaining
bytes as a big-endian base-58 number. -/
theorem base58_encode_preserves_leading_zeros (data : List Nat) :
    ((base58_encode_chars data).takeWhile (fun c => c == '1')).length =
      (data.takeWhile (fun b => b == 0)).length ∧
    decodeVal ((base58_encode_chars data).drop (data.takeWhile (fun b => b == 0)).length) =
      bytesToNat (data.drop (data.takeWhile (fun b => b == 0)).length) := by
  have hz : base58_encode_chars data =
      List.replicate (data.takeWhile (fun b => b == 0)).length '1' ++
        (Nat.digits 58 (bytesToNat (data.drop (data.takeWhile (fun b => b == 0)).length))).reverse.map b58chr := by
    unfold base58_encode_chars
    dsimp only
    rw [b58digits_eq]
  rw [hz]
  rw [drop_takeWhile_length]
  cases hrest : data.dropWhile (fun b => b == 0) with
  | nil =>
    have hd0 : (Nat.digits 58 (bytesToNat ([] : List Nat))).reverse.map b58chr = [] := by
      simp [bytesToNat]
    rw [hd0]
    constructor
    · rw [takeWhile_replicate_append (fun c => c == '1') '1' rfl]
      simp
    · rw [List.drop_left' (by simp)]
      rfl
  | cons r0 rrest =>
    have hr0 : (r0 == 0) = false := head_dropWhile_false _ data r0 rrest hrest
    have hr0' : r0 ≠ 0 := by simpa using hr0
    have hV : bytesToNat (r0 :: rrest) ≠ 0 := (bytesToNat_pos r0 rrest hr0').ne'
    obtain ⟨hne, htake, hall, hdec⟩ := digitChars_spec (bytesToNat (r0 :: rrest)) hV
    constructor
    · rw [takeWhile_replicate_append (fun c => c == '1') '1' rfl]
      rw [htake]
      simp
    · rw [List.drop_left' (by simp)]
      exact hdec

/-- Minimal big-endian rendering inverts the byte value on byte lists with
a nonzero leading byte. -/
lemma natToBytesBE_bytesToNat (x : Nat) (t : List Nat) (hx : x ≠ 0)
    (hlt : ∀ b ∈ x :: t, b < 256) :
    natToBytesBE (bytesToNat (x :: t)) = x :: t := by
  have hdig : Nat.digits 256 (Nat.ofDigits 256 (x :: t).reverse) = (x :: t).reverse := by
    apply Nat.digits_ofDigits 256 (by norm_num)
    · intro d hd
      exact hlt d (List.mem_reverse.mp hd)
    · intro h
      have h1 : ((x :: t).reverse).getLast? = some x := by
        rw [List.reverse_cons]
        exact List.getLast?_concat _
      rw [List.getLast?_eq_getLast _ h] at h1
      rw [Option.some.inj h1]
      exact hx
  unfold natToBytesBE
  rw [bytesToNat_eq_ofDigits, hdig, List.reverse_reverse]

/-- Round trip of the spec-side base58check decoder against the encoder of
the code, on a payload with a nonzero first byte (every WIF payload starts
with the version byte 0x80 or 0xEF). -/
lemma base58check_decode_encode (C : Crypto) (x : Nat) (body' : List Nat)
    (hx : x ≠ 0)
    (hlt : ∀ b ∈ x :: body', b < 256)
    (hsha_len : ∀ l, (C.sha256 l).length = 32)
    (hsha_lt : ∀ l, ∀ b ∈ C.sha256 l, b < 256) :
    base58check_decode C (base58_encode_chars ((x :: body') ++
      (C.sha256 (C.sha256 (x :: body'))).take 4)) = some (x :: body') := by
  set chk := (C.sha256 (C.sha256 (x :: body'))).take 4 with hchkdef
  have hchk_len : chk.length = 4 := by
    rw [hchkdef, List.length_take, hsha_len]
    norm_num
  have hxb : (x == 0) = false := by simpa using hx
  have hfull_lt : ∀ b ∈ x :: (body' ++ chk), b < 256 := by
    intro b hb
    rcases List.mem_cons.mp hb with rfl | hb
    · exact hlt _ (List.mem_cons_self _ _)
    · rcases List.mem_append.mp hb with hb | hb
      · exact hlt b (List.mem_cons_of_mem x hb)
      · exact hsha_lt _ b (List.mem_of_mem_take hb)
  have hV : bytesToNat (x :: (body' ++ chk)) ≠ 0 := (bytesToNat_pos x _ hx).ne'
  have henc : base58_encode_chars ((x :: body') ++ chk) =
      (Nat.digits 58 (bytesToNat (x :: (body' ++ chk)))).reverse.map b58chr := by
    unfold base58_encode_chars
    dsimp only
    rw [List.cons_append]
    rw [show (x :: (body' ++ chk)).takeWhile (fun b => b == 0) = [] by
      simp [List.takeWhile_cons, hxb]]
    rw [b58digits_eq]
    simp
  obtain ⟨hne, htake, hall, hdec⟩ := digitChars_spec (bytesToNat (x :: (body' ++ chk))) hV
  rw [henc]
  unfold base58check_decode
  dsimp only
  rw [htake]
  simp only [List.length_nil, List.drop_zero]
  rw [if_pos hall]
  rw [hdec]
  have hpay : List.replicate 0 0 ++ natToBytesBE (bytesToNat (x :: (body' ++ chk))) =
      (x :: body') ++ chk := by
    rw [List.replicate_zero, List.nil_append]
    rw [natToBytesBE_bytesToNat x _ hx hfull_lt, List.cons_append]
  rw [hpay]
  rw [if_neg (by rw [List.length_append, hchk_len]; omega)]
  have hlen4 : ((x :: body') ++ chk).length - 4 = (x :: body').length := by
    rw [List.length_append, hchk_len]
    omega
  rw [hlen4]
  rw [List.take_left, List.drop_left]
  rw [if_pos hchkdef.symm]

/-- C6: decoding a WIF string produced by the encoder recovers the private
key bytes and the compression flag; the version byte is 0x80 on mainnet
and 0xEF on testnet and the 0x01 marker is appended exactly when
compressed (WIF decoding is modelled from the spec, the code ships no
decoder). -/
theorem wif_roundtrip (C : Crypto) (testnet compressed : Bool) (key : List Nat)
    (hlen : key.length = 32) (hkey : ∀ b ∈ key, b < 256)
    (hsha_len : ∀ l, (C.sha256 l).length = 32)
    (hsha_lt : ∀ l, ∀ b ∈ C.sha256 l, b < 256) :
    wif_decode C testnet (private_key_to_wif C testnet key compressed) =
      some (key, compressed) := by
  unfold private_key_to_wif
  rw [if_neg (by rw [hlen]; exact fun h => h rfl)]
  dsimp only
  set v0 : Nat := if testnet then 0xEF else 0x80 with hv0def
  have hv0 : v0 ≠ 0 := by cases testnet <;> simp [hv0def]
  have hv0lt : v0 < 256 := by cases testnet <;> simp [hv0def]
  have hlt : ∀ b ∈ v0 :: (key ++ (if compressed then [1] else [])), b < 256 := by
    intro b hb
    rcases List.mem_cons.mp hb with rfl | hb
    · exact hv0lt
    · rcases List.mem_append.mp hb with hb | hb
      · exact hkey b hb
      · cases compressed with
        | true =>
          rw [if_pos rfl] at hb
          rw [List.mem_singleton.mp hb]
          norm_num
        | false =>
          rw [if_neg (by simp)] at hb
          cases hb
  have hrt := base58check_decode_encode C v0 (key ++ (if compressed then [1] else []))
    hv0 hlt hsha_len hsha_lt
  unfold wif_decode base58_encode
  dsimp only
  simp only [List.cons_append] at hrt ⊢
  rw [hrt]
  dsimp only
  rw [if_pos rfl]
  cases compressed with
  | false =>
    simp [hlen]
  | true =>
    simp only [show (if (true : Bool) = true then [1] else ([] : List Nat)) = [1] from rfl]
    rw [if_neg (by simp [hlen])]
    rw [if_pos ⟨by simp [hlen], List.getLast?_concat _⟩]
    rw [List.take_left' hlen]

/-- Witness for C6 on a concrete 32-byte key under the degenerate hash. -/
theorem wif_roundtrip_witness :
    (List.replicate 32 7).length = 32 ∧
    (∀ l, (cryptoW.sha256 l).length = 32) ∧
    wif_decode cryptoW false (private_key_to_wif cryptoW false (List.replicate 32 7) true) =
      some (List.replicate 32 7, true) :=
  ⟨by decide, fun _ => by simp [cryptoW],
    wif_roundtrip cryptoW false true (List.replicate 32 7) (by decide)
      (fun b hb => by rw [List.eq_of_mem_replicate hb]; norm_num)
      (fun _ => by simp [cryptoW])
      (fun _ b hb => by
        have hb0 : b = 0 := List.eq_of_mem_replicate hb
        omega)⟩

/-- The page loop is the fold of the scan step over the visited indices. -/
lemma parsePagesAux_eq_foldl (data : List Nat) : ∀ (fuel offset : Nat) (reg : Registry),
    parsePagesAux data fuel offset reg =
      (scanRanges data fuel offset).foldl (scanIndex data) reg := by
  intro fuel
  induction fuel with
  | zero => intro o r; rfl
  | succ fuel ih =>
    intro o r
    unfold parsePagesAux scanRanges
    by_cases h1 : o < data.length
    · rw [if_pos h1, if_pos h1]
      by_cases h2 : o + 1024 > data.length
      · rw [if_pos h2, if_pos h2]
        rfl
      · rw [if_neg h2, if_neg h2]
        rw [List.foldl_append]
        exact ih _ _
    · rw [if_neg h1, if_neg h1]
      rfl

/-- The master-key side of one scan step. -/
lemma scanIndex_master_keys (data : List Nat) (reg : Registry) (i : Nat) :
    (scanIndex data reg i).master_keys =
      if mkeyMarkerAt data i ∧ i + 4 + 64 < data.length
      then mapInsert reg.master_keys "default" (masterKeyAt data i)
      else reg.master_keys := by
  unfold scanIndex
  by_cases h1 : mkeyMarkerAt data i ∧ i + 4 + 64 < data.length <;>
    by_cases h2 : ckeyMarkerAt data i ∧ i + 4 + 80 < data.length <;>
      simp [h1, h2]

/-- Inserting under "default" into a map of the invariant shape yields the
singleton map. -/
lemma mapInsert_default (m : List (String × MasterKey)) (v : MasterKey) (h : MKShape m) :
    mapInsert m "default" v = [("default", v)] := by
  rcases h with rfl | ⟨w, rfl⟩
  · rfl
  · simp [mapInsert]

/-- The fold of the scan step keeps at most the record of the last
master-key hit. -/
lemma foldl_scanIndex_master_keys (data : List Nat) :
    ∀ (l : List Nat) (reg : Registry), MKShape reg.master_keys →
      (l.foldl (scanIndex data) reg).master_keys =
        (match (l.filter (mkeyHitB data)).getLast? with
         | none => reg.master_keys
         | some i => [("default", masterKeyAt data i)]) := by
  intro l
  induction l with
  | nil => intro reg _; rfl
  | cons x xs ih =>
    intro reg h
    rw [List.foldl_cons]
    by_cases hx : mkeyMarkerAt data x ∧ x + 4 + 64 < data.length
    · have hmk : (scanIndex data reg x).master_keys = [("default", masterKeyAt data x)] := by
        rw [scanIndex_master_keys, if_pos hx, mapInsert_default _ _ h]
      have hsh : MKShape (scanIndex data reg x).master_keys := Or.inr ⟨_, hmk⟩
      rw [ih _ hsh]
      have hfil : (x :: xs).filter (mkeyHitB data) = x :: xs.filter (mkeyHitB data) :=
        List.filter_cons_of_pos (by simp [mkeyHitB, hx])
      rw [hfil]
      cases hxs : xs.filter (mkeyHitB data) with
      | nil => simp [hmk]
      | cons y ys =>
        rw [List.getLast?_cons_cons]
        cases hgl : (y :: ys).getLast? with
        | none => exact absurd hgl (by simp)
        | some i => rfl
    · have hmk : (scanIndex data reg x).master_keys = reg.master_keys := by
        rw [scanIndex_master_keys, if_neg hx]
      have hsh : MKShape (scanIndex data reg x).master_keys := by rw [hmk]; exact h
      rw [ih _ hsh, hmk]
      have hfil : (x :: xs).filter (mkeyHitB data) = xs.filter (mkeyHitB data) :=
        List.filter_cons_of_neg (by simp [mkeyHitB, hx])
      rw [hfil]

/-- C4: after parsing a buffer with a valid header, the master-key map is
empty or exactly the single record extracted at the last master-key
marker, stored under the fixed identifier "default"; in particular it
never holds more than one entry. -/
theorem master_key_registry_last_marker (data : List Nat)
    (hlen : 16 ≤ data.length)
    (hmagic : bdbMagic data = 0x00061561 ∨ bdbMagic data = 0x61150600) :
    (parse_bdb_file data Registry.empty).2.master_keys =
      (match (mkeyHits data).getLast? with
       | none => []
       | some i => [("default", masterKeyAt data i)]) ∧
    (parse_bdb_file data Registry.empty).2.master_keys.length ≤ 1 ∧
    ∀ e ∈ (parse_bdb_file data Registry.empty).2.master_keys, e.1 = "default" := by
  have hparse : (parse_bdb_file data Registry.empty).2 =
      parsePagesAux data data.length 0 Registry.empty := by
    unfold parse_bdb_file
    rw [if_neg (by omega)]
    rw [if_neg (by rintro ⟨h1, h2⟩; rcases hmagic with h | h; exact h1 h; exact h2 h)]
  have hres : (parse_bdb_file data Registry.empty).2.master_keys =
      (match (mkeyHits data).getLast? with
       | none => []
       | some i => [("default", masterKeyAt data i)]) := by
    rw [hparse, parsePagesAux_eq_foldl]
    exact foldl_scanIndex_master_keys data _ Registry.empty (Or.inl rfl)
  refine ⟨hres, ?_, ?_⟩
  · rw [hres]
    cases (mkeyHits data).getLast? <;> simp
  · rw [hres]
    cases (mkeyHits data).getLast? with
    | none => intro e he; cases he
    | some i =>
      intro e he
      rw [List.mem_singleton.mp he]

/-- Witness for C4 on a 16-byte buffer holding only a valid magic. -/
theorem master_key_registry_last_marker_witness :
    16 ≤ magicOnlyBuf.length ∧
    (bdbMagic magicOnlyBuf = 0x00061561 ∨ bdbMagic magicOnlyBuf = 0x61150600) ∧
    (parse_bdb_file magicOnlyBuf Registry.empty).2.master_keys.length ≤ 1 :=
  ⟨by decide, by decide,
    (master_key_registry_last_marker magicOnlyBuf (by decide) (by decide)).2.1⟩

/-- On a fresh state, load fails whenever the parse fails. -/
lemma load_fresh_parse_false (data : List Nat) (hne : data.isEmpty = false)
    (hp : (parse_bdb_file data ⟨[], []⟩).1 = false) :
    (load (some data) initState).1 = false := by
  unfold load initState
  simp [hne, hp]

/-- The scan step leaves the crypted-key map alone at an index with no
crypted-key marker. -/
lemma scanIndex_crypted_keys_of_not_ckey (data : List Nat) (reg : Registry) (i : Nat)
    (h : ¬ ckeyMarkerAt data i) :
    (scanIndex data reg i).crypted_keys = reg.crypted_keys := by
  unfold scanIndex
  have h2 : ¬ (ckeyMarkerAt data i ∧ i + 4 + 80 < data.length) := fun hc => h hc.1
  by_cases h1 : mkeyMarkerAt data i ∧ i + 4 + 64 < data.length <;> simp [h1, h2]

/-- A scan over indices with no crypted-key marker keeps the crypted-key
map unchanged. -/
lemma foldl_scanIndex_crypted_nil (data : List Nat) :
    ∀ (l : List Nat) (reg : Registry), (∀ i ∈ l, ¬ ckeyMarkerAt data i) →
      (l.foldl (scanIndex data) reg).crypted_keys = reg.crypted_keys := by
  intro l
  induction l with
  | nil => intro reg _; rfl
  | cons x xs ih =>
    intro reg h
    rw [List.foldl_cons]
    rw [ih _ (fun i hi => h i (List.mem_cons_of_mem x hi))]
    exact scanIndex_crypted_keys_of_not_ckey data reg x (h x (List.mem_cons_self x xs))

set_option maxRecDepth 10000 in
/-- C1 counterexample: a 1024-byte buffer with a valid magic whose scan
yields one master-key record and no encrypted-key record makes the parse,
and hence load, fail; so at least one record of a single kind is not
sufficient for a successful load. -/
theorem parse_fails_with_only_master_key :
    (parse_bdb_file c1buf Registry.empty).1 = false ∧
    (parse_bdb_file c1buf Registry.empty).2.master_keys.length = 1 ∧
    (load (some c1buf) initState).1 = false := by
  have hnockey : ∀ i : Nat, ¬ ckeyMarkerAt c1buf i := by
    intro i hc
    have h99 : getByte c1buf i = 99 := hc.1
    unfold getByte at h99
    rw [List.getD_eq_getD_get?] at h99
    rcases hgd : c1buf.get? i with _ | b
    · rw [hgd] at h99
      simp only [Option.getD_none] at h99
      exact absurd h99 (by norm_num)
    · rw [hgd] at h99
      simp only [Option.getD_some] at h99
      have hbmem : b ∈ ([0x61, 0x15, 0x06, 0x00, 109, 107, 101, 121] : List Nat) ++
          List.replicate 1016 0 := List.get?_mem hgd
      rcases List.mem_append.mp hbmem with hb | hb
      · rw [h99] at hb
        exact absurd hb (by decide)
      · have hb0 := List.eq_of_mem_replicate hb
        omega
  have hckfold : (parsePagesAux c1buf c1buf.length 0 Registry.empty).crypted_keys = [] := by
    rw [parsePagesAux_eq_foldl]
    exact foldl_scanIndex_crypted_nil c1buf _ Registry.empty (fun i _ => hnockey i)
  have hparse2 : (parse_bdb_file c1buf Registry.empty).2 =
      parsePagesAux c1buf c1buf.length 0 Registry.empty := by
    unfold parse_bdb_file
    rw [if_neg (by decide), if_neg (by decide)]
  have hscan : scannedIndices c1buf = List.range' 0 992 := by decide
  have hhit : 4 ∈ mkeyHits c1buf := by
    unfold mkeyHits
    rw [hscan]
    exact List.mem_filter.mpr ⟨by decide, by decide⟩
  have hne : mkeyHits c1buf ≠ [] := List.ne_nil_of_mem hhit
  have hres : ((scannedIndices c1buf).foldl (scanIndex c1buf) Registry.empty).master_keys =
      (match (mkeyHits c1buf).getLast? with
       | none => ([] : List (String × MasterKey))
       | some i => [("default", masterKeyAt c1buf i)]) :=
    foldl_scanIndex_master_keys c1buf _ Registry.empty (Or.inl rfl)
  have hmk : (parse_bdb_file c1buf Registry.empty).2.master_keys.length = 1 := by
    rw [hparse2, parsePagesAux_eq_foldl]
    show ((scannedIndices c1buf).foldl (scanIndex c1buf) Registry.empty).master_keys.length = 1
    rw [hres]
    cases hgl : (mkeyHits c1buf).getLast? with
    | none => exact absurd (List.getLast?_eq_none_iff.mp hgl) hne
    | some i => rfl
  have hfalse : (parse_bdb_file c1buf Registry.empty).1 = false := by
    unfold parse_bdb_file
    rw [if_neg (by decide), if_neg (by decide)]
    dsimp only
    rw [hckfold]
    simp
  exact ⟨hfalse, hmk, load_fresh_parse_false c1buf (by decide)
    (by rw [show (⟨[], []⟩ : Registry) = Registry.empty from rfl]; exact hfalse)⟩

/-- C1 (amended): for a buffer with a valid magic signature, the parse
succeeds exactly when the final registry holds at least one master-key
record AND at least one encrypted-key record; a buffer yielding records of
only one kind fails to load. -/
theorem parse_succeeds_iff_both_kinds (data : List Nat) (reg0 : Registry)
    (hlen : 16 ≤ data.length)
    (hmagic : bdbMagic data = 0x00061561 ∨ bdbMagic data = 0x61150600) :
    (parse_bdb_file data reg0).1 = true ↔
      (parse_bdb_file data reg0).2.master_keys ≠ [] ∧
      (parse_bdb_file data reg0).2.crypted_keys ≠ [] := by
  unfold parse_bdb_file
  rw [if_neg (by omega)]
  rw [if_neg (by rintro ⟨h1, h2⟩; rcases hmagic with h | h; exact h1 h; exact h2 h)]
  simp

/-- Witness for the amended C1 on a 20-byte buffer with a valid magic. -/
theorem parse_succeeds_iff_both_kinds_witness :
    16 ≤ magicOnlyBuf20.length ∧
    (bdbMagic magicOnlyBuf20 = 0x00061561 ∨ bdbMagic magicOnlyBuf20 = 0x61150600) ∧
    ((parse_bdb_file magicOnlyBuf20 Registry.empty).1 = true ↔
      (parse_bdb_file magicOnlyBuf20 Registry.empty).2.master_keys ≠ [] ∧
      (parse_bdb_file magicOnlyBuf20 Registry.empty).2.crypted_keys ≠ []) :=
  ⟨by decide, by decide,
    parse_succeeds_iff_both_kinds magicOnlyBuf20 Registry.empty (by decide) (by decide)⟩

end BtcRecovery
